import Mathlib

/-!
Verification of the shopping-cart aggregation routine of the foodgram
backend (`backend/recipes/views.py`, `download_shopping_cart`) and the
cart endpoints (`ShoppingCartViewSet`), over a shallow embedding of the
relevant data model (`backend/recipes/models.py`).

Modelling decisions:
* Database rows become Lean structures; tables become lists held in a
  `DB` record.  List order models row iteration order (for the cart,
  creation order: the add endpoint appends at the end).
* The Python accumulation dict `buying_list` preserves insertion order,
  so it is embedded as an insertion-ordered association list of
  `BuyingEntry`.
* `RecipeIngredients.amount` is a nullable column
  (`PositiveSmallIntegerField(null=True)`), embedded as `Option Nat`.
  Python raises `TypeError` when the loop adds `None` to a running
  total; a raised exception aborts the view, embedded as
  `Except Unit`.
-/

namespace Foodgram

/-- `Ingredient` model: `name` and `measurement_unit` columns
(`models.py` lines 9-36).  The unit enumeration is embedded as its
underlying string. -/
structure Ingredient where
  name : String
  measurement_unit : String
  deriving DecidableEq, Repr

/-- `RecipeIngredients` join row restricted to the fields the
aggregation reads: the referenced ingredient and the nullable
`amount` (`models.py` lines 96-108). -/
structure RecipeIngredient where
  ingredient : Ingredient
  amount : Option Nat
  deriving DecidableEq, Repr

/-- One entry of the transient `buying_list` dict built by
`download_shopping_cart`: the dict key (ingredient name) together with
the stored `measurement_unit` and running `amount`. -/
structure BuyingEntry where
  name : String
  measurement_unit : String
  amount : Option Nat
  deriving DecidableEq, Repr

/-- Persisted state read by the view functions.  `recipeIngredients`
pairs each join row with the id of its recipe; `shoppingCart` holds
`(user id, recipe id)` pairs in creation order; `recipes` lists the
ids of existing recipes. -/
structure DB where
  recipeIngredients : List (Nat × RecipeIngredient)
  shoppingCart : List (Nat × Nat)
  recipes : List Nat
  deriving DecidableEq, Repr

/-- One iteration of the inner loop of `download_shopping_cart`
(views.py lines 153-164): if the ingredient name is not yet a key of
`buying_list`, a fresh entry with that ingredient's unit and amount is
appended (Python dicts append new keys at the end); otherwise the
line's amount is added to the stored amount, which raises `TypeError`
when either side is `None`. -/
def insertLine (l : RecipeIngredient) : List BuyingEntry → Except Unit (List BuyingEntry)
  | [] => .ok [⟨l.ingredient.name, l.ingredient.measurement_unit, l.amount⟩]
  | e :: rest =>
    if e.name = l.ingredient.name then
      match e.amount, l.amount with
      | some a, some b => .ok ({ e with amount := some (a + b) } :: rest)
      | _, _ => .error ()
    else
      match insertLine l rest with
      | .ok r => .ok (e :: r)
      | .error u => .error u

/-- The accumulation loop of `download_shopping_cart` run from a given
dict state over the remaining recipe-ingredient lines; an exception
aborts the whole loop. -/
def buildFrom (bl : List BuyingEntry) : List RecipeIngredient → Except Unit (List BuyingEntry)
  | [] => .ok bl
  | l :: ls =>
    match insertLine l bl with
    | .ok bl2 => buildFrom bl2 ls
    | .error u => .error u

/-- The recipe-ingredient lines visited by `download_shopping_cart`
for a user, in traversal order: cart rows of the user in table order,
and for each one the `RecipeIngredients` rows of its recipe in table
order (views.py lines 148-153). -/
def cartLines (db : DB) (user : Nat) : List RecipeIngredient :=
  (db.shoppingCart.filter fun c => c.1 == user).flatMap fun c =>
    (db.recipeIngredients.filter fun ri => ri.1 == c.2).map fun ri => ri.2

/-- The aggregation core of `download_shopping_cart` (views.py lines
148-164): fold the accumulation loop over the visited lines starting
from an empty dict. -/
def aggregate (db : DB) (user : Nat) : Except Unit (List BuyingEntry) :=
  buildFrom [] (cartLines db user)

/-- A `drawString` call recorded by the renderer: x position, y
position and the drawn text. -/
structure DrawCall where
  x : Nat
  y : Int
  text : String
  deriving DecidableEq, Repr

/-- Python renders `None` amounts as the string `None` inside the
f-string. -/
def amountText : Option Nat → String
  | some a => toString a
  | none => "None"

/-- The text drawn for one buying-list entry (views.py line 179). -/
def lineText (e : BuyingEntry) : String :=
  e.name ++ " (" ++ e.measurement_unit ++ ") - " ++ amountText e.amount

/-- The drawing loop of `download_shopping_cart` (views.py lines
174-181): x is fixed at 50, the height starts at the given value and
decreases by 25 after each drawn line. -/
def renderFrom (height : Int) : List BuyingEntry → List DrawCall
  | [] => []
  | e :: rest => ⟨50, height, lineText e⟩ :: renderFrom (height - 25) rest

/-- The full page drawn by `download_shopping_cart`: the drawing loop
started at height 800. -/
def render (bl : List BuyingEntry) : List DrawCall :=
  renderFrom 800 bl

/-- A wall-clock instant as read by `datetime.datetime.now()`. -/
structure Timestamp where
  month : Nat
  day : Nat
  year : Nat
  hour : Nat
  minute : Nat
  second : Nat
  deriving DecidableEq, Repr

/-- Two-digit zero padding, as the `strftime` fields `%m %d %H %M %S`
produce. -/
def pad2 (n : Nat) : String :=
  if n < 10 then "0" ++ toString n else toString n

/-- `strftime("%m/%d/%Y, %H:%M:%S")` (views.py line 166). -/
def strftimeMDYHMS (t : Timestamp) : String :=
  pad2 t.month ++ "/" ++ pad2 t.day ++ "/" ++ toString t.year ++ ", " ++
    pad2 t.hour ++ ":" ++ pad2 t.minute ++ ":" ++ pad2 t.second

/-- The HTTP response assembled by `download_shopping_cart`: declared
content type, `Content-Disposition` header, and the drawn page as
body. -/
structure PdfResponse where
  content_type : String
  content_disposition : String
  body : List DrawCall
  deriving DecidableEq, Repr

/-- `download_shopping_cart` (views.py lines 145-184): aggregate the
user's cart (a `TypeError` raised inside the loop aborts the view
before any response is built), then build the `application/pdf`
response whose filename embeds the formatted current time, and draw
one line per buying-list entry. -/
def download_shopping_cart (db : DB) (user : Nat) (now : Timestamp) :
    Except Unit PdfResponse :=
  match aggregate db user with
  | .error u => .error u
  | .ok bl =>
    .ok { content_type := "application/pdf"
          content_disposition :=
            "attachment; filename=\"buying_list_" ++ strftimeMDYHMS now ++ ".pdf\""
          body := render bl }

/-- The view as a state transformer: it issues only read queries
(`shopping_cart.all()` and `RecipeIngredients.objects.filter`), so the
persisted state component passes through unchanged. -/
def runDownload (db : DB) (user : Nat) (now : Timestamp) :
    Except Unit PdfResponse × DB :=
  (download_shopping_cart db user now, db)

/-- The aggregation core as a state transformer, for the idempotence
and frame properties. -/
def runAggregate (db : DB) (user : Nat) : Except Unit (List BuyingEntry) × DB :=
  (aggregate db user, db)

/-- Response statuses returned by the cart endpoints. -/
inductive ApiStatus where
  | created
  | badRequest
  | noContent
  | notFound
  deriving DecidableEq, Repr

/-- `ShoppingCartViewSet.get` (views.py lines 116-133): a 400 answer
when the `(user, recipe)` pair is already in the cart, otherwise the
serializer saves a new cart row.  Modelled from the spec:
`ShoppingCartSerializer` is not among the provided sources; its
`save()` is modelled after the spec's `Created on add-to-cart action`
as appending the new `(user, recipe)` row. -/
def shoppingCartAdd (db : DB) (user rid : Nat) : ApiStatus × DB :=
  if db.shoppingCart.any fun c => c.1 == user && c.2 == rid then
    (.badRequest, db)
  else
    (.created, { db with shoppingCart := db.shoppingCart ++ [(user, rid)] })

/-- `ShoppingCartViewSet.delete` (views.py lines 135-142): 404 when the
recipe does not exist, 400 when the pair is not in the cart, otherwise
the matching cart row is deleted. -/
def shoppingCartDelete (db : DB) (user rid : Nat) : ApiStatus × DB :=
  if !(db.recipes.contains rid) then
    (.notFound, db)
  else if !(db.shoppingCart.any fun c => c.1 == user && c.2 == rid) then
    (.badRequest, db)
  else
    (.noContent,
      { db with shoppingCart := db.shoppingCart.eraseP fun c => c.1 == user && c.2 == rid })

/-! ## Specification-side functions used to state the claims -/

/-- The dict keys in order. -/
def namesOf (bl : List BuyingEntry) : List String :=
  bl.map fun e => e.name

/-- Append a name unless it was already seen. -/
def seenInsert (acc : List String) (x : String) : List String :=
  if x ∈ acc then acc else acc ++ [x]

/-- First-seen-order deduplication of a list of names, continuing a
given accumulator. -/
def firstSeen (acc : List String) (xs : List String) : List String :=
  xs.foldl seenInsert acc

/-- The first dict entry with the given key. -/
def findEntry (n : String) (bl : List BuyingEntry) : Option BuyingEntry :=
  bl.find? fun e => e.name == n

/-- Sum of the amounts of all lines carrying the given ingredient
name (null amounts counted as 0). -/
def specAmount (n : String) (ls : List RecipeIngredient) : Nat :=
  ((ls.filter fun l => l.ingredient.name == n).map fun l => l.amount.getD 0).sum

/-- Reference accumulator for the running total of one dict entry:
starting from the first stored amount, add the remaining amounts in
order; adding with a `None` on either side is the `TypeError`. -/
def accAmounts (first : Option Nat) : List (Option Nat) → Except Unit (Option Nat)
  | [] => .ok first
  | b :: rest =>
    match first, b with
    | some x, some y => accAmounts (some (x + y)) rest
    | _, _ => .error ()

/-! ## Lemmas about one iteration of the accumulation loop -/

lemma findEntry_nil (n : String) : findEntry n [] = none := rfl

lemma findEntry_cons (n : String) (e : BuyingEntry) (bl : List BuyingEntry) :
    findEntry n (e :: bl) = if e.name = n then some e else findEntry n bl := by
  by_cases h : e.name = n
  · have hb : (e.name == n) = true := beq_iff_eq.mpr h
    simp [findEntry, List.find?, hb, h]
  · have hb : (e.name == n) = false := beq_eq_false_iff_ne.mpr h
    simp [findEntry, List.find?, hb, h]

lemma namesOf_cons (e : BuyingEntry) (bl : List BuyingEntry) :
    namesOf (e :: bl) = e.name :: namesOf bl := rfl

/-- A line whose name differs from `n` leaves the dict entry for `n`
untouched. -/
lemma findEntry_insertLine_ne (l : RecipeIngredient) (n : String)
    (hne : l.ingredient.name ≠ n) :
    ∀ bl bl2, insertLine l bl = .ok bl2 → findEntry n bl2 = findEntry n bl := by
  intro bl
  induction bl with
  | nil =>
    intro bl2 h
    simp only [insertLine, Except.ok.injEq] at h
    subst h
    simp [findEntry_cons, findEntry_nil, hne]
  | cons e rest ih =>
    intro bl2 h
    unfold insertLine at h
    split at h
    · next hen =>
      split at h
      · next a b ha hb =>
        simp only [Except.ok.injEq] at h
        subst h
        rw [findEntry_cons, findEntry_cons]
        simp only [BuyingEntry.mk.injEq]
        have : e.name ≠ n := by rw [hen]; exact hne
        rw [if_neg this, if_neg this]
      · exact absurd h (by simp)
    · next hen =>
      split at h
      · next r hr =>
        simp only [Except.ok.injEq] at h
        subst h
        rw [findEntry_cons, findEntry_cons]
        by_cases hn : e.name = n
        · rw [if_pos hn, if_pos hn]
        · rw [if_neg hn, if_neg hn]
          exact ih r hr
      · exact absurd h (by simp)

/-- A line whose name is `n` either creates the dict entry for `n`
from its own unit and amount, or succeeds in adding its (necessarily
non-null) amount to the (necessarily non-null) stored amount, keeping
the stored unit. -/
lemma findEntry_insertLine_eq (l : RecipeIngredient) (n : String)
    (heq : l.ingredient.name = n) :
    ∀ bl bl2, insertLine l bl = .ok bl2 →
      (findEntry n bl = none →
        findEntry n bl2 = some ⟨n, l.ingredient.measurement_unit, l.amount⟩) ∧
      (∀ e, findEntry n bl = some e →
        ∃ a b, e.amount = some a ∧ l.amount = some b ∧
          findEntry n bl2 = some ⟨e.name, e.measurement_unit, some (a + b)⟩) := by
  intro bl
  induction bl with
  | nil =>
    intro bl2 h
    simp only [insertLine, Except.ok.injEq] at h
    subst h
    refine ⟨fun _ => ?_, fun e he => absurd he (by simp [findEntry_nil])⟩
    rw [heq, findEntry_cons, if_pos rfl]
  | cons e rest ih =>
    intro bl2 h
    unfold insertLine at h
    split at h
    · next hen =>
      have hn : e.name = n := hen.trans heq
      split at h
      · next a b ha hb =>
        simp only [Except.ok.injEq] at h
        subst h
        constructor
        · intro hnone
          rw [findEntry_cons, if_pos hn] at hnone
          cases hnone
        · intro e' he'
          rw [findEntry_cons, if_pos hn] at he'
          injection he' with he'
          subst he'
          exact ⟨a, b, ha, hb, by rw [findEntry_cons]; simp [hn]⟩
      · exact absurd h (by simp)
    · next hen =>
      have hn : e.name ≠ n := fun hc => hen (hc.trans heq.symm)
      split at h
      · next r hr =>
        simp only [Except.ok.injEq] at h
        subst h
        constructor
        · intro hnone
          rw [findEntry_cons, if_neg hn] at hnone
          rw [findEntry_cons, if_neg hn]
          exact (ih r hr).1 hnone
        · intro e' he'
          rw [findEntry_cons, if_neg hn] at he'
          rcases (ih r hr).2 e' he' with ⟨a, b, ha, hb, hfind⟩
          exact ⟨a, b, ha, hb, by rw [findEntry_cons, if_neg hn]; exact hfind⟩
      · exact absurd h (by simp)

/-- One loop iteration extends the dict key sequence exactly the way
`seenInsert` does. -/
lemma insertLine_names (l : RecipeIngredient) :
    ∀ bl bl2, insertLine l bl = .ok bl2 →
      namesOf bl2 = seenInsert (namesOf bl) l.ingredient.name := by
  intro bl
  induction bl with
  | nil =>
    intro bl2 h
    simp only [insertLine, Except.ok.injEq] at h
    subst h
    simp [namesOf, seenInsert]
  | cons e rest ih =>
    intro bl2 h
    unfold insertLine at h
    split at h
    · next hen =>
      split at h
      · next a b ha hb =>
        simp only [Except.ok.injEq] at h
        subst h
        rw [namesOf_cons, namesOf_cons]
        show e.name :: namesOf rest = seenInsert (e.name :: namesOf rest) l.ingredient.name
        rw [seenInsert, if_pos (by rw [← hen]; exact List.mem_cons_self _ _)]
      · exact absurd h (by simp)
    · next hen =>
      split at h
      · next r hr =>
        simp only [Except.ok.injEq] at h
        subst h
        rw [namesOf_cons, namesOf_cons, ih r hr, seenInsert, seenInsert]
        by_cases hmem : l.ingredient.name ∈ namesOf rest
        · rw [if_pos hmem, if_pos (List.mem_cons_of_mem _ hmem)]
        · have : l.ingredient.name ∉ e.name :: namesOf rest := by
            intro hc
            rcases List.mem_cons.mp hc with hc | hc
            · exact hen hc.symm
            · exact hmem hc
          rw [if_neg hmem, if_neg this, List.cons_append]
      · exact absurd h (by simp)

/-! ## Lemmas about the whole accumulation loop -/

/-- The dict keys after the loop are the first-seen-order continuation
of the starting keys by the visited ingredient names. -/
lemma buildFrom_names :
    ∀ (ls : List RecipeIngredient) (bl bl' : List BuyingEntry),
      buildFrom bl ls = .ok bl' →
      namesOf bl' = firstSeen (namesOf bl) (ls.map fun l => l.ingredient.name) := by
  intro ls
  induction ls with
  | nil =>
    intro bl bl' h
    simp only [buildFrom, Except.ok.injEq] at h
    subst h
    rfl
  | cons l ls ih =>
    intro bl bl' h
    unfold buildFrom at h
    split at h
    · next bl2 h2 =>
      rw [List.map_cons]
      show namesOf bl' = firstSeen (seenInsert (namesOf bl) l.ingredient.name) (ls.map fun l => l.ingredient.name)
      rw [← insertLine_names l bl bl2 h2]
      exact ih bl2 bl' h
    · exact absurd h (by simp)

lemma seenInsert_nodup (acc : List String) (x : String) (h : acc.Nodup) :
    (seenInsert acc x).Nodup := by
  rw [seenInsert]
  split
  · exact h
  · next hmem =>
    refine List.Nodup.append h (List.nodup_singleton x) ?_
    intro a ha hax
    rw [List.mem_singleton] at hax
    subst hax
    exact hmem ha

lemma firstSeen_nodup :
    ∀ (xs acc : List String), acc.Nodup → (firstSeen acc xs).Nodup := by
  intro xs
  induction xs with
  | nil => intro acc h; exact h
  | cons x xs ih =>
    intro acc h
    show (firstSeen (seenInsert acc x) xs).Nodup
    exact ih _ (seenInsert_nodup acc x h)

/-- The dict keys after a successful aggregation are free of
duplicates. -/
lemma aggregate_nodup (db : DB) (user : Nat) (bl' : List BuyingEntry)
    (h : aggregate db user = .ok bl') : (namesOf bl').Nodup := by
  rw [buildFrom_names (cartLines db user) [] bl' h]
  exact firstSeen_nodup _ [] List.nodup_nil

/-- Characterization of the final dict entry for a fixed name `n` in
terms of the visited lines carrying that name: if none carry it and no
starting entry exists, there is no final entry; if the starting dict
has no entry, the final entry takes the unit of the first such line
and accumulates the amounts of the rest onto its amount; if a starting
entry exists, all amounts of such lines are accumulated onto it. -/
lemma buildFrom_findEntry (n : String) :
    ∀ (ls : List RecipeIngredient) (bl bl' : List BuyingEntry),
      buildFrom bl ls = .ok bl' →
      ((findEntry n bl = none → (ls.filter fun l => l.ingredient.name == n) = [] →
          findEntry n bl' = none) ∧
       (∀ l0 rest, findEntry n bl = none →
          (ls.filter fun l => l.ingredient.name == n) = l0 :: rest →
          ∃ v, accAmounts l0.amount (rest.map fun l => l.amount) = .ok v ∧
            findEntry n bl' = some ⟨n, l0.ingredient.measurement_unit, v⟩) ∧
       (∀ e, findEntry n bl = some e →
          ∃ v, accAmounts e.amount
              ((ls.filter fun l => l.ingredient.name == n).map fun l => l.amount) = .ok v ∧
            findEntry n bl' = some ⟨e.name, e.measurement_unit, v⟩)) := by
  intro ls
  induction ls with
  | nil =>
    intro bl bl' h
    simp only [buildFrom, Except.ok.injEq] at h
    subst h
    refine ⟨fun hnone _ => hnone, fun l0 rest _ hfil => ?_, fun e he => ⟨e.amount, rfl, he⟩⟩
    simp at hfil
  | cons l ls ih =>
    intro bl bl' h
    unfold buildFrom at h
    split at h
    · next bl2 h2 =>
      by_cases hln : l.ingredient.name = n
      · have hb : (l.ingredient.name == n) = true := beq_iff_eq.mpr hln
        have hfil : ((l :: ls).filter fun x => x.ingredient.name == n) =
            l :: (ls.filter fun x => x.ingredient.name == n) := by
          rw [List.filter_cons, if_pos hb]
        refine ⟨?_, ?_, ?_⟩
        · intro _ hnil
          rw [hfil] at hnil
          cases hnil
        · intro l0 rest hnone hcons
          rw [hfil] at hcons
          injection hcons with hl0 hrest
          subst hl0
          subst hrest
          have hstep := (findEntry_insertLine_eq l n hln bl bl2 h2).1 hnone
          exact (ih bl2 bl' h).2.2 _ hstep
        · intro e he
          obtain ⟨a, b, ha, hb', hstep⟩ :=
            (findEntry_insertLine_eq l n hln bl bl2 h2).2 e he
          obtain ⟨v, hacc, hfind⟩ := (ih bl2 bl' h).2.2 _ hstep
          refine ⟨v, ?_, hfind⟩
          rw [hfil, List.map_cons, ha, hb']
          show accAmounts (some (a + b)) _ = .ok v
          exact hacc
      · have hb : (l.ingredient.name == n) = false := beq_eq_false_iff_ne.mpr hln
        have hfil : ((l :: ls).filter fun x => x.ingredient.name == n) =
            ls.filter fun x => x.ingredient.name == n := by
          rw [List.filter_cons, if_neg (by simp [hb])]
        have hstep := findEntry_insertLine_ne l n hln bl bl2 h2
        refine ⟨?_, ?_, ?_⟩
        · intro hnone hnil
          rw [hfil] at hnil
          exact (ih bl2 bl' h).1 (hstep.trans hnone) hnil
        · intro l0 rest hnone hcons
          rw [hfil] at hcons
          exact (ih bl2 bl' h).2.1 l0 rest (hstep.trans hnone) hcons
        · intro e he
          obtain ⟨v, hacc, hfind⟩ := (ih bl2 bl' h).2.2 e (hstep.trans he)
          refine ⟨v, ?_, hfind⟩
          rw [hfil]
          exact hacc
    · exact absurd h (by simp)

/-- One loop iteration always succeeds when the line's amount and all
stored amounts are non-null, and keeps all stored amounts
non-null. -/
lemma insertLine_ok (l : RecipeIngredient) (hl : l.amount.isSome) :
    ∀ bl, (∀ e ∈ bl, e.amount.isSome) →
      ∃ bl2, insertLine l bl = .ok bl2 ∧ ∀ e ∈ bl2, e.amount.isSome := by
  intro bl
  induction bl with
  | nil =>
    intro _
    refine ⟨_, rfl, ?_⟩
    intro e he
    rw [List.mem_singleton] at he
    subst he
    exact hl
  | cons e rest ih =>
    intro hbl
    by_cases hen : e.name = l.ingredient.name
    · obtain ⟨a, ha⟩ := Option.isSome_iff_exists.mp (hbl e (List.mem_cons_self _ _))
      obtain ⟨b, hb⟩ := Option.isSome_iff_exists.mp hl
      refine ⟨{ e with amount := some (a + b) } :: rest, ?_, ?_⟩
      · unfold insertLine
        rw [if_pos hen, ha, hb]
      · intro e' he'
        rcases List.mem_cons.mp he' with rfl | hmem
        · simp
        · exact hbl e' (List.mem_cons_of_mem _ hmem)
    · obtain ⟨r, hr, hsome⟩ := ih fun e' he' => hbl e' (List.mem_cons_of_mem _ he')
      refine ⟨e :: r, ?_, ?_⟩
      · unfold insertLine
        rw [if_neg hen, hr]
      · intro e' he'
        rcases List.mem_cons.mp he' with rfl | hmem
        · exact hbl e' (List.mem_cons_self _ _)
        · exact hsome e' hmem

/-- The whole loop succeeds when every visited amount is non-null. -/
lemma buildFrom_ok :
    ∀ (ls : List RecipeIngredient), (∀ l ∈ ls, l.amount.isSome) →
      ∀ bl, (∀ e ∈ bl, e.amount.isSome) →
      ∃ bl', buildFrom bl ls = .ok bl' ∧ ∀ e ∈ bl', e.amount.isSome := by
  intro ls
  induction ls with
  | nil =>
    intro _ bl hbl
    exact ⟨bl, rfl, hbl⟩
  | cons l ls ih =>
    intro hls bl hbl
    obtain ⟨bl2, h2, hsome2⟩ := insertLine_ok l (hls l (List.mem_cons_self _ _)) bl hbl
    obtain ⟨bl', h', hsome'⟩ := ih (fun x hx => hls x (List.mem_cons_of_mem _ hx)) bl2 hsome2
    refine ⟨bl', ?_, hsome'⟩
    unfold buildFrom
    rw [h2]
    exact h'

/-- Reference accumulation over non-null amounts yields the plain
sum. -/
lemma accAmounts_all_some :
    ∀ (bs : List (Option Nat)) (a : Nat), (∀ b ∈ bs, b.isSome) →
      accAmounts (some a) bs = .ok (some (a + (bs.map fun b => b.getD 0).sum)) := by
  intro bs
  induction bs with
  | nil =>
    intro a _
    simp [accAmounts]
  | cons b bs ih =>
    intro a hb
    obtain ⟨y, hy⟩ := Option.isSome_iff_exists.mp (hb b (List.mem_cons_self _ _))
    subst hy
    show accAmounts (some (a + y)) bs = _
    rw [ih (a + y) fun x hx => hb x (List.mem_cons_of_mem _ hx)]
    simp [Nat.add_assoc]

/-- In a dict with duplicate-free keys, a member entry is what lookup
by its own name finds. -/
lemma findEntry_of_mem_nodup (bl : List BuyingEntry) (h : (namesOf bl).Nodup)
    (e : BuyingEntry) (he : e ∈ bl) : findEntry e.name bl = some e := by
  induction bl with
  | nil => cases he
  | cons f rest ih =>
    rw [namesOf_cons, List.nodup_cons] at h
    rcases List.mem_cons.mp he with rfl | hmem
    · rw [findEntry_cons, if_pos rfl]
    · rw [findEntry_cons]
      by_cases hfn : f.name = e.name
      · exact absurd (hfn ▸ List.mem_map_of_mem (fun x => x.name) hmem) h.1
      · rw [if_neg hfn]
        exact ih h.2 hmem

/-- In a dict with duplicate-free keys, filtering by a key returns the
looked-up entry (or nothing). -/
lemma filter_eq_findEntry_toList (n : String) :
    ∀ (bl : List BuyingEntry), (namesOf bl).Nodup →
      bl.filter (fun e => e.name == n) = (findEntry n bl).toList := by
  intro bl
  induction bl with
  | nil => intro _; rfl
  | cons f rest ih =>
    intro h
    rw [namesOf_cons, List.nodup_cons] at h
    by_cases hfn : f.name = n
    · have hb : (f.name == n) = true := beq_iff_eq.mpr hfn
      rw [List.filter_cons, if_pos hb, findEntry_cons, if_pos hfn]
      have hrest : rest.filter (fun e => e.name == n) = [] := by
        rw [List.filter_eq_nil_iff]
        intro e hee hbe
        apply h.1
        rw [hfn, ← beq_iff_eq.mp hbe]
        exact List.mem_map_of_mem (fun x => x.name) hee
      rw [hrest]
      rfl
    · have hb : (f.name == n) = false := beq_eq_false_iff_ne.mpr hfn
      rw [List.filter_cons, if_neg (by simp [hb]), findEntry_cons, if_neg hfn]
      exact ih h.2

instance instDecEqExcept {ε α : Type} [DecidableEq ε] [DecidableEq α] :
    DecidableEq (Except ε α) := fun a b =>
  match a, b with
  | .ok x, .ok y =>
    if h : x = y then .isTrue (by rw [h])
    else .isFalse (by intro hc; cases hc; exact h rfl)
  | .error x, .error y =>
    if h : x = y then .isTrue (by rw [h])
    else .isFalse (by intro hc; cases hc; exact h rfl)
  | .ok _, .error _ => .isFalse (by intro hc; cases hc)
  | .error _, .ok _ => .isFalse (by intro hc; cases hc)

/-! ## Concrete states used for witnesses -/

/-- Sugar measured in grams. -/
def sugarG : Ingredient := ⟨"Sugar", "gram"⟩

/-- Sugar measured in kilograms: the data model allows the same name
under a second unit (`unique_recipe_ingredient` is on the pair). -/
def sugarKg : Ingredient := ⟨"Sugar", "kilogram"⟩

/-- Pepper measured in grams. -/
def pepperG : Ingredient := ⟨"Pepper", "gram"⟩

/-- Two cart recipes, each containing Sugar in grams (100 and 50). -/
def dbSugar : DB :=
  { recipeIngredients := [(1, ⟨sugarG, some 100⟩), (2, ⟨sugarG, some 50⟩)]
    shoppingCart := [(1, 1), (1, 2)]
    recipes := [1, 2] }

/-- Two cart recipes containing Sugar under different units. -/
def dbSugarUnits : DB :=
  { recipeIngredients := [(1, ⟨sugarG, some 100⟩), (2, ⟨sugarKg, some 50⟩)]
    shoppingCart := [(1, 1), (1, 2)]
    recipes := [1, 2] }

/-- Cart visiting Sugar, then Pepper, then Sugar again. -/
def dbOrder : DB :=
  { recipeIngredients := [(1, ⟨sugarG, some 1⟩), (1, ⟨pepperG, some 2⟩), (2, ⟨sugarG, some 3⟩)]
    shoppingCart := [(1, 1), (1, 2)]
    recipes := [1, 2] }

/-- A state whose only cart entry belongs to user 2, so user 1's cart
is empty. -/
def dbOther : DB :=
  { recipeIngredients := [(1, ⟨sugarG, some 1⟩)]
    shoppingCart := [(2, 1)]
    recipes := [1] }

/-- A cart meeting Sugar with amount 100 first and a null Sugar amount
second. -/
def dbNullSecond : DB :=
  { recipeIngredients := [(1, ⟨sugarG, some 100⟩), (2, ⟨sugarG, none⟩)]
    shoppingCart := [(1, 1), (1, 2)]
    recipes := [1, 2] }

/-- A cart meeting a null Sugar amount first and amount 100 second. -/
def dbNullFirst : DB :=
  { recipeIngredients := [(1, ⟨sugarG, none⟩), (2, ⟨sugarG, some 100⟩)]
    shoppingCart := [(1, 1), (1, 2)]
    recipes := [1, 2] }

/-- A fixed wall-clock instant. -/
def tOct : Timestamp := ⟨10, 12, 2026, 13, 5, 9⟩

/-! ## Claims -/

/-- C1: for every user cart whose recipe-ingredient lines all carry
non-null amounts, the aggregation succeeds, its result has at most one
entry per distinct ingredient name, and the amount of each entry is
the sum of the amounts of all recipe-ingredient lines carrying that
name across all recipes in the cart. -/
theorem aggregate_one_entry_per_name_sum (db : DB) (user : Nat)
    (h : ∀ l ∈ cartLines db user, l.amount.isSome) :
    ∃ bl', aggregate db user = .ok bl' ∧ (namesOf bl').Nodup ∧
      ∀ e ∈ bl', e.amount = some (specAmount e.name (cartLines db user)) := by
  obtain ⟨bl', hok, hsome⟩ :=
    buildFrom_ok (cartLines db user) h [] (by intro e he; cases he)
  have hok' : aggregate db user = .ok bl' := hok
  have hnodup := aggregate_nodup db user bl' hok'
  refine ⟨bl', hok', hnodup, ?_⟩
  intro e he
  have hfind : findEntry e.name bl' = some e := findEntry_of_mem_nodup bl' hnodup e he
  have hchar := buildFrom_findEntry e.name (cartLines db user) [] bl' hok'
  rcases hfilter : (cartLines db user).filter (fun l => l.ingredient.name == e.name) with
    _ | ⟨l0, rest⟩
  · have hnone := hchar.1 rfl hfilter
    rw [hfind] at hnone
    cases hnone
  · obtain ⟨v, hacc, hfind2⟩ := hchar.2.1 l0 rest rfl hfilter
    rw [hfind] at hfind2
    injection hfind2 with hfind2
    have hsub : ∀ l ∈ l0 :: rest, l.amount.isSome := by
      intro l hl
      have hl' : l ∈ (cartLines db user).filter (fun x => x.ingredient.name == e.name) := by
        rw [hfilter]
        exact hl
      exact h l (List.mem_filter.mp hl').1
    obtain ⟨a0, ha0⟩ := Option.isSome_iff_exists.mp (hsub l0 (List.mem_cons_self _ _))
    have hrest : ∀ b ∈ rest.map (fun l => l.amount), b.isSome := by
      intro b hb
      obtain ⟨l, hl, rfl⟩ := List.mem_map.mp hb
      exact hsub l (List.mem_cons_of_mem _ hl)
    rw [ha0, accAmounts_all_some _ a0 hrest] at hacc
    injection hacc with hacc
    have heamt : e.amount = v := congrArg BuyingEntry.amount hfind2
    rw [heamt, ← hacc]
    simp only [specAmount]
    rw [hfilter, List.map_cons, List.sum_cons, ha0, List.map_map]
    rfl

/-- Witness for C1: two cart recipes each containing Sugar in grams
with amounts 100 and 50 yield a single Sugar line with amount 150. -/
theorem aggregate_one_entry_per_name_sum_witness :
    (∃ bl', aggregate dbSugar 1 = .ok bl' ∧ (namesOf bl').Nodup ∧
      ∀ e ∈ bl', e.amount = some (specAmount e.name (cartLines dbSugar 1))) ∧
    aggregate dbSugar 1 = .ok [⟨"Sugar", "gram", some 150⟩] :=
  ⟨aggregate_one_entry_per_name_sum dbSugar 1 (by decide), by decide⟩

/-- C2: when the lines visited for a cart that carry a given
ingredient name are exactly two, with different units and amounts `a`
and `b`, a successful aggregation has exactly one line for that name,
its unit is the unit of the first-encountered occurrence, and its
amount is the naive sum `a + b`; the second occurrence's unit is
discarded. -/
theorem aggregate_name_collision_unit_discarded (db : DB) (user : Nat)
    (l1 l2 : RecipeIngredient) (a b : Nat) (bl' : List BuyingEntry)
    (hf : (cartLines db user).filter
        (fun l => l.ingredient.name == l1.ingredient.name) = [l1, l2])
    (hu : l1.ingredient.measurement_unit ≠ l2.ingredient.measurement_unit)
    (ha : l1.amount = some a) (hb : l2.amount = some b)
    (hok : aggregate db user = .ok bl') :
    bl'.filter (fun e => e.name == l1.ingredient.name) =
      [⟨l1.ingredient.name, l1.ingredient.measurement_unit, some (a + b)⟩] := by
  have hchar := buildFrom_findEntry l1.ingredient.name (cartLines db user) [] bl' hok
  obtain ⟨v, hacc, hfind⟩ := hchar.2.1 l1 [l2] rfl hf
  simp only [List.map_cons, List.map_nil] at hacc
  rw [ha, hb] at hacc
  show bl'.filter (fun e => e.name == l1.ingredient.name) = _
  rw [filter_eq_findEntry_toList l1.ingredient.name bl'
      (aggregate_nodup db user bl' hok), hfind]
  have hv : v = some (a + b) := by
    have hred : accAmounts (some a) [some b] = Except.ok (some (a + b)) := rfl
    rw [hred] at hacc
    injection hacc with h'
    exact h'.symm
  rw [hv]
  rfl

/-- Witness for C2: Sugar in grams (100) and Sugar in kilograms (50)
collapse to one gram line of 150. -/
theorem aggregate_name_collision_unit_discarded_witness :
    ([⟨"Sugar", "gram", some 150⟩] : List BuyingEntry).filter
        (fun e => e.name == (⟨sugarG, some 100⟩ : RecipeIngredient).ingredient.name) =
      [⟨(⟨sugarG, some 100⟩ : RecipeIngredient).ingredient.name,
        (⟨sugarG, some 100⟩ : RecipeIngredient).ingredient.measurement_unit,
        some (100 + 50)⟩] :=
  aggregate_name_collision_unit_discarded dbSugarUnits 1
    ⟨sugarG, some 100⟩ ⟨sugarKg, some 50⟩ 100 50 [⟨"Sugar", "gram", some 150⟩]
    (by decide) (by decide) rfl rfl (by decide)

/-- C3: a successful aggregation emits its lines in the order in which
distinct ingredient names are first encountered along the traversal of
the cart (cart rows in table order, each recipe's ingredient rows in
table order); no sort is applied. -/
theorem aggregate_first_seen_order (db : DB) (user : Nat) (bl' : List BuyingEntry)
    (h : aggregate db user = .ok bl') :
    namesOf bl' = firstSeen [] ((cartLines db user).map fun l => l.ingredient.name) :=
  buildFrom_names (cartLines db user) [] bl' h

/-- Witness for C3: visiting Sugar, Pepper, Sugar yields the key order
Sugar, Pepper. -/
theorem aggregate_first_seen_order_witness :
    namesOf [⟨"Sugar", "gram", some 4⟩, ⟨"Pepper", "gram", some 2⟩] =
      firstSeen [] ((cartLines dbOrder 1).map fun l => l.ingredient.name) :=
  aggregate_first_seen_order dbOrder 1
    [⟨"Sugar", "gram", some 4⟩, ⟨"Pepper", "gram", some 2⟩] (by decide)

/-- C4: a user with an empty cart gets a successful, empty aggregation
and a response whose page has zero drawn lines. -/
theorem aggregate_empty_cart_ok (db : DB) (user : Nat) (now : Timestamp)
    (h : db.shoppingCart.filter (fun c => c.1 == user) = []) :
    aggregate db user = .ok [] ∧
      ∃ resp, download_shopping_cart db user now = .ok resp ∧ resp.body = [] := by
  have hlines : cartLines db user = [] := by
    rw [cartLines, h]
    rfl
  have hagg : aggregate db user = .ok [] := by
    rw [aggregate, hlines]
    rfl
  refine ⟨hagg,
    { content_type := "application/pdf"
      content_disposition :=
        "attachment; filename=\"buying_list_" ++ strftimeMDYHMS now ++ ".pdf\""
      body := [] }, ?_, rfl⟩
  unfold download_shopping_cart
  rw [hagg]
  rfl

/-- Witness for C4: user 1 has no cart entry in `dbOther`. -/
theorem aggregate_empty_cart_ok_witness :
    aggregate dbOther 1 = .ok [] ∧
      ∃ resp, download_shopping_cart dbOther 1 tOct = .ok resp ∧ resp.body = [] :=
  aggregate_empty_cart_ok dbOther 1 tOct (by decide)

/-- C5: running the aggregation twice in succession for the same user,
the second run starting from the state the first run left behind (no
intervening cart mutation), yields identical output both times. -/
theorem aggregate_idempotent (db : DB) (user : Nat) :
    (runAggregate (runAggregate db user).2 user).1 = (runAggregate db user).1 := rfl

/-- C6: the download view is a pure read: every table of the persisted
state (cart entries, recipe-ingredient lines, recipes) is unchanged
after the call. -/
theorem download_no_side_effects (db : DB) (user : Nat) (now : Timestamp) :
    (runDownload db user now).2.shoppingCart = db.shoppingCart ∧
    (runDownload db user now).2.recipeIngredients = db.recipeIngredients ∧
    (runDownload db user now).2.recipes = db.recipes :=
  ⟨rfl, rfl, rfl⟩

lemma renderFrom_length :
    ∀ (bl : List BuyingEntry) (h0 : Int), (renderFrom h0 bl).length = bl.length := by
  intro bl
  induction bl with
  | nil => intro h0; rfl
  | cons e rest ih =>
    intro h0
    rw [renderFrom, List.length_cons, List.length_cons, ih (h0 - 25)]

lemma renderFrom_getElem :
    ∀ (bl : List BuyingEntry) (h0 : Int) (i : Nat),
      (renderFrom h0 bl)[i]? =
        (bl[i]?).map fun e => ⟨50, h0 - 25 * (i : Int), lineText e⟩ := by
  intro bl
  induction bl with
  | nil =>
    intro h0 i
    simp [renderFrom]
  | cons e rest ih =>
    intro h0 i
    cases i with
    | zero => simp [renderFrom]
    | succ j =>
      rw [renderFrom, List.getElem?_cons_succ, List.getElem?_cons_succ, ih (h0 - 25) j]
      have harith : h0 - 25 - 25 * (j : Int) = h0 - 25 * ((j + 1 : Nat) : Int) := by
        push_cast
        ring
      rw [harith]

/-- C7: the renderer draws exactly one text line per aggregated entry,
the i-th at x 50 and y 800 − 25·i (a constant vertical step of 25),
with the text `<name> (<unit>) - <amount>`. -/
theorem render_line_format (bl : List BuyingEntry) (i : Nat) (e : BuyingEntry)
    (he : bl[i]? = some e) :
    (render bl).length = bl.length ∧
    (render bl)[i]? = some ⟨50, 800 - 25 * (i : Int),
      e.name ++ " (" ++ e.measurement_unit ++ ") - " ++ amountText e.amount⟩ := by
  refine ⟨renderFrom_length bl 800, ?_⟩
  rw [render, renderFrom_getElem bl 800 i, he]
  rfl

/-- Witness for C7 at a two-entry list and index 1. -/
theorem render_line_format_witness :
    (render [⟨"Sugar", "gram", some 150⟩, ⟨"Pepper", "gram", some 2⟩]).length =
      ([⟨"Sugar", "gram", some 150⟩, ⟨"Pepper", "gram", some 2⟩] : List BuyingEntry).length ∧
    (render [⟨"Sugar", "gram", some 150⟩, ⟨"Pepper", "gram", some 2⟩])[1]? =
      some ⟨50, 800 - 25 * ((1 : Nat) : Int),
        "Pepper" ++ " (" ++ "gram" ++ ") - " ++ amountText (some 2)⟩ :=
  render_line_format [⟨"Sugar", "gram", some 150⟩, ⟨"Pepper", "gram", some 2⟩] 1
    ⟨"Pepper", "gram", some 2⟩ (by decide)

/-- C8: every successful invocation declares media type
`application/pdf` and suggests the filename
`buying_list_<MM/DD/YYYY, HH:MM:SS>.pdf` built from the generation
time. -/
theorem download_content_type_and_filename (db : DB) (user : Nat) (now : Timestamp)
    (resp : PdfResponse) (h : download_shopping_cart db user now = .ok resp) :
    resp.content_type = "application/pdf" ∧
    resp.content_disposition =
      "attachment; filename=\"buying_list_" ++
        (pad2 now.month ++ "/" ++ pad2 now.day ++ "/" ++ toString now.year ++ ", " ++
         pad2 now.hour ++ ":" ++ pad2 now.minute ++ ":" ++ pad2 now.second) ++
        ".pdf\"" := by
  unfold download_shopping_cart at h
  split at h
  · exact absurd h (by simp)
  · simp only [Except.ok.injEq] at h
    subst h
    exact ⟨rfl, rfl⟩

/-- The response produced for `dbSugar` at the fixed instant. -/
def respSugar : PdfResponse :=
  { content_type := "application/pdf"
    content_disposition := "attachment; filename=\"buying_list_10/12/2026, 13:05:09.pdf\""
    body := render [⟨"Sugar", "gram", some 150⟩] }

/-- Witness for C8 at `dbSugar` and the fixed instant. -/
theorem download_content_type_and_filename_witness :
    respSugar.content_type = "application/pdf" ∧
    respSugar.content_disposition =
      "attachment; filename=\"buying_list_" ++
        (pad2 10 ++ "/" ++ pad2 12 ++ "/" ++ toString 2026 ++ ", " ++
         pad2 13 ++ ":" ++ pad2 5 ++ ":" ++ pad2 9) ++
        ".pdf\"" :=
  download_content_type_and_filename dbSugar 1 tOct respSugar (by decide)

lemma cart_any_iff (l : List (Nat × Nat)) (user rid : Nat) :
    (l.any fun c => c.1 == user && c.2 == rid) = true ↔ (user, rid) ∈ l := by
  rw [List.any_eq_true]
  constructor
  · rintro ⟨⟨x, y⟩, hc, hb⟩
    rw [Bool.and_eq_true, beq_iff_eq, beq_iff_eq] at hb
    obtain ⟨rfl, rfl⟩ := hb
    exact hc
  · intro hm
    exact ⟨(user, rid), hm, by simp⟩

/-- C9: starting from a cart satisfying the uniqueness invariant (a
`(user, recipe)` pair appears at most once), the add endpoint rejects
a duplicate pair with a 400 answer leaving the state unchanged, both
endpoints preserve the invariant, and the remove endpoint changes
nothing unless the pair exists. -/
theorem shoppingCart_unique_invariant (db : DB) (user rid : Nat)
    (hinv : db.shoppingCart.Nodup) :
    ((user, rid) ∈ db.shoppingCart →
      shoppingCartAdd db user rid = (.badRequest, db)) ∧
    (shoppingCartAdd db user rid).2.shoppingCart.Nodup ∧
    (shoppingCartDelete db user rid).2.shoppingCart.Nodup ∧
    ((user, rid) ∉ db.shoppingCart → (shoppingCartDelete db user rid).2 = db) := by
  refine ⟨?_, ?_, ?_, ?_⟩
  · intro hm
    unfold shoppingCartAdd
    rw [if_pos ((cart_any_iff _ _ _).mpr hm)]
  · unfold shoppingCartAdd
    by_cases hc : (db.shoppingCart.any fun c => c.1 == user && c.2 == rid) = true
    · rw [if_pos hc]
      exact hinv
    · rw [if_neg hc]
      refine List.Nodup.append hinv (List.nodup_singleton _) ?_
      intro p hp hps
      rw [List.mem_singleton] at hps
      subst hps
      exact hc ((cart_any_iff _ _ _).mpr hp)
  · unfold shoppingCartDelete
    by_cases hr : (db.recipes.contains rid) = true
    · rw [if_neg (by rw [hr]; decide)]
      by_cases hc : (db.shoppingCart.any fun c => c.1 == user && c.2 == rid) = true
      · rw [if_neg (by rw [hc]; decide)]
        exact (List.eraseP_sublist _).nodup hinv
      · rw [if_pos (by rw [Bool.eq_false_iff.mpr hc]; decide)]
        exact hinv
    · rw [if_pos (by rw [Bool.eq_false_iff.mpr hr]; decide)]
      exact hinv
  · intro hnm
    have hany : (db.shoppingCart.any fun c => c.1 == user && c.2 == rid) = false :=
      Bool.eq_false_iff.mpr fun hc => hnm ((cart_any_iff _ _ _).mp hc)
    unfold shoppingCartDelete
    by_cases hr : (db.recipes.contains rid) = true
    · rw [if_neg (by rw [hr]; decide), if_pos (by rw [hany]; decide)]
    · rw [if_pos (by rw [Bool.eq_false_iff.mpr hr]; decide)]

/-- Witness for C9 at `dbSugar` with user 1 and recipe 1. -/
theorem shoppingCart_unique_invariant_witness :
    ((1, 1) ∈ dbSugar.shoppingCart →
      shoppingCartAdd dbSugar 1 1 = (.badRequest, dbSugar)) ∧
    (shoppingCartAdd dbSugar 1 1).2.shoppingCart.Nodup ∧
    (shoppingCartDelete dbSugar 1 1).2.shoppingCart.Nodup ∧
    ((1, 1) ∉ dbSugar.shoppingCart → (shoppingCartDelete dbSugar 1 1).2 = dbSugar) :=
  shoppingCart_unique_invariant dbSugar 1 1 (by decide)

/-- C10: under the precondition that every recipe-ingredient line
reachable from the cart has a non-null amount, the aggregation always
succeeds; without it, a null amount meeting an already-seen name (in
either order) reaches the error branch: the accumulation raises and
the view aborts. -/
theorem aggregate_null_amount_safety (db : DB) (user : Nat)
    (h : ∀ l ∈ cartLines db user, l.amount.isSome) :
    (∃ bl', aggregate db user = .ok bl') ∧
    aggregate dbNullSecond 1 = .error () ∧
    aggregate dbNullFirst 1 = .error () := by
  obtain ⟨bl', hok, _⟩ :=
    buildFrom_ok (cartLines db user) h [] (by intro e he; cases he)
  exact ⟨⟨bl', hok⟩, by decide, by decide⟩

/-- Witness for C10 at `dbSugar`, whose amounts are all non-null. -/
theorem aggregate_null_amount_safety_witness :
    (∃ bl', aggregate dbSugar 1 = .ok bl') ∧
    aggregate dbNullSecond 1 = .error () ∧
    aggregate dbNullFirst 1 = .error () :=
  aggregate_null_amount_safety dbSugar 1 (by decide)

end Foodgram
